/-
Verification of the frame-metrics aggregation and reporting engine of
`tools/qpextract.cc` (libde265-based QP/prediction/CTU extractor).

The C++ source is shallowly embedded below.  A decoded frame is modelled as
its query surface (grid dimensions, `minCbSize`, and the per-coordinate
accessors `get_log2CbSize_cbUnits`, `get_QPY`, `get_QPCb`, `get_QPCr`,
`get_pred_mode`).  Histograms written through `int*` pointers are modelled as
total functions `Nat → Int` (the memory view), with a separate `Array`-based
model carrying bounds information where array bounds are at issue.
Machine `int` arithmetic never overflows in the ranges the claims exercise,
so `Int`/`Nat` are used directly.  `double` arithmetic is modelled over `ℚ`;
the standard deviation is carried as its radicand (variance), with
`Real.sqrt` applied in statements that speak about the standard deviation
itself.
-/
import Mathlib

namespace Qpextract

/-- Processing mode, from `enum Procmode` in qpextract.cc. -/
inductive Procmode
  | qpymode
  | qpcbmode
  | qpcrmode
  | predmode
  | ctumode
  | fullmode
deriving DecidableEq, Repr

/-- Query surface of one decoded frame (`de265_image` plus its SPS), as used
by the aggregators: grid dimensions in minimum-coding-block units, the
pixel scale factor `MinCbSizeY`, and the per-coordinate accessors. -/
structure Frame where
  picWidthInMinCbsY : Nat
  picHeightInMinCbsY : Nat
  minCbSize : Nat
  log2CbSize : Nat → Nat → Nat
  qpy : Nat → Nat → Int
  qpcb : Nat → Nat → Int
  qpcr : Nat → Nat → Int
  predMode : Nat → Nat → Int
  frameId : Int

/-- Row-major traversal order of the minimum-coding-block grid
(`y0` outer loop, `x0` inner loop), as in all three `get_*_distro`
functions. -/
def blocks (f : Frame) : List (Nat × Nat) :=
  (List.range f.picHeightInMinCbsY).flatMap
    (fun y0 => (List.range f.picWidthInMinCbsY).map (fun x0 => (x0, y0)))

/-- Pointwise update of a memory-view histogram (`h[i] = v`). -/
def updF (g : Nat → Int) (i : Nat) (v : Int) : Nat → Int :=
  fun j => if j = i then v else g j

/-- Sum of the first `n` cells of a memory-view histogram. -/
def sumTo (g : Nat → Int) (n : Nat) : Int :=
  ((List.range n).map g).sum

/-- Metric selection in `get_qp_distro`: `qp` starts at `-1` and is
assigned from `get_QPY`/`get_QPCb`/`get_QPCr` depending on the mode. -/
def qpGet (f : Frame) (pm : Procmode) (xb yb : Nat) : Int :=
  match pm with
  | .qpymode => f.qpy xb yb
  | .qpcbmode => f.qpcb xb yb
  | .qpcrmode => f.qpcr xb yb
  | _ => -1

/-- Metric value of a grid cell, read at its pixel origin
(`x0 * minCbSize`, `y0 * minCbSize`). -/
def qAt (f : Frame) (pm : Procmode) (p : Nat × Nat) : Int :=
  qpGet f pm (p.1 * f.minCbSize) (p.2 * f.minCbSize)

/-- Block pixel edge length of a grid cell (`1 << log2CbSize`). -/
def cbAt (f : Frame) (p : Nat × Nat) : Int :=
  2 ^ f.log2CbSize p.1 p.2

/-- Prediction mode of a grid cell, read at its pixel origin. -/
def pAt (f : Frame) (p : Nat × Nat) : Int :=
  f.predMode (p.1 * f.minCbSize) (p.2 * f.minCbSize)

/-- State threaded through the `get_qp_distro` grid walk: the two
histograms, the running min/max, and the number of `invalid qp`
diagnostics printed to stderr. -/
structure QpState where
  distro : Nat → Int
  distrow : Nat → Int
  qp_max : Int
  qp_min : Int
  diags : Nat

/-- Body of the double loop of `get_qp_distro` for one grid cell,
transcribed from qpextract.cc lines 178-212: skip non-origin cells
(`log2CbSize == 0`), update the running min/max for every `qp != -1`
(this happens before the domain check), then either emit a diagnostic
(out-of-domain `qp`) or bump both histograms. -/
def qpStep (f : Frame) (pm : Procmode) (st : QpState) (p : Nat × Nat) : QpState :=
  let l2 := f.log2CbSize p.1 p.2
  if l2 = 0 then st
  else
    let xb := p.1 * f.minCbSize
    let yb := p.2 * f.minCbSize
    let cbSize : Int := 2 ^ l2
    let qp := qpGet f pm xb yb
    let qmax := if qp ≠ -1 ∧ (st.qp_max = -1 ∨ qp > st.qp_max) then qp else st.qp_max
    let qmin := if qp ≠ -1 ∧ (st.qp_min = -1 ∨ qp < st.qp_min) then qp else st.qp_min
    if qp < 0 ∨ 100 ≤ qp then
      { st with qp_max := qmax, qp_min := qmin, diags := st.diags + 1 }
    else
      { distro := updF st.distro qp.toNat (st.distro qp.toNat + 1),
        distrow := updF st.distrow qp.toNat (st.distrow qp.toNat + cbSize * cbSize),
        qp_max := qmax, qp_min := qmin, diags := st.diags }

/-- Embedding of `get_qp_distro` (qpextract.cc lines 163-214): histograms
initialised to zero, min/max initialised to the sentinel `-1`, then the
row-major grid walk. -/
def get_qp_distro (f : Frame) (pm : Procmode) : QpState :=
  (blocks f).foldl (qpStep f pm) ⟨fun _ => 0, fun _ => 0, -1, -1, 0⟩

/-- A grid cell holds a valid QP block: it is a partition origin
(`log2CbSize ≠ 0`) and its metric value lies in the declared domain
`[0, 100)`. -/
def validQpB (f : Frame) (pm : Procmode) (p : Nat × Nat) : Bool :=
  decide (f.log2CbSize p.1 p.2 ≠ 0) &&
    decide (¬(qAt f pm p < 0 ∨ 100 ≤ qAt f pm p))

/-- A grid cell holds an invalid QP block: a partition origin whose metric
value lies outside `[0, 100)`. -/
def invalidQpB (f : Frame) (pm : Procmode) (p : Nat × Nat) : Bool :=
  decide (f.log2CbSize p.1 p.2 ≠ 0) &&
    decide (qAt f pm p < 0 ∨ 100 ≤ qAt f pm p)

/-- Number of valid QP blocks of a frame. -/
def countValidQp (f : Frame) (pm : Procmode) : Nat :=
  ((blocks f).filter (validQpB f pm)).length

/-- Sum of `CbSize * CbSize` (pixel areas) over the valid QP blocks. -/
def areaValidQp (f : Frame) (pm : Procmode) : Int :=
  (((blocks f).filter (validQpB f pm)).map (fun p => cbAt f p * cbAt f p)).sum

/-- QP values of the partition origins in `l` whose value is not the
sentinel `-1`. -/
def trackedQpL (f : Frame) (pm : Procmode) (l : List (Nat × Nat)) : List Int :=
  l.filterMap (fun p =>
    if f.log2CbSize p.1 p.2 ≠ 0 ∧ qAt f pm p ≠ -1 then some (qAt f pm p) else none)

/-- QP values that participate in the running min/max tracking: one value
per partition origin, except the sentinel `-1` (the domain check does not
gate this tracking in the source). -/
def trackedQpValues (f : Frame) (pm : Procmode) : List Int :=
  trackedQpL f pm (blocks f)

/-- Maximum of a list, or the default `d` for the empty list. -/
def maxOr (d : Int) : List Int → Int
  | [] => d
  | v :: vs => vs.foldl max v

/-- Minimum of a list, or the default `d` for the empty list. -/
def minOr (d : Int) : List Int → Int
  | [] => d
  | v :: vs => vs.foldl min v

/-- State threaded through the `get_pred_distro` grid walk. -/
structure PredState where
  distro : Nat → Int
  distrow : Nat → Int
  diags : Nat

/-- Body of the double loop of `get_pred_distro` (qpextract.cc lines
232-253): skip non-origin cells, emit a diagnostic for a prediction mode
outside `{0,1,2}`, otherwise bump the count and area histograms. -/
def predStep (f : Frame) (st : PredState) (p : Nat × Nat) : PredState :=
  let l2 := f.log2CbSize p.1 p.2
  if l2 = 0 then st
  else
    let xb := p.1 * f.minCbSize
    let yb := p.2 * f.minCbSize
    let cbSize : Int := 2 ^ l2
    let pmv := f.predMode xb yb
    if pmv < 0 ∨ pmv > 2 then
      { st with diags := st.diags + 1 }
    else
      { distro := updF st.distro pmv.toNat (st.distro pmv.toNat + 1),
        distrow := updF st.distrow pmv.toNat (st.distrow pmv.toNat + cbSize * cbSize),
        diags := st.diags }

/-- Embedding of `get_pred_distro` (qpextract.cc lines 220-255). -/
def get_pred_distro (f : Frame) : PredState :=
  (blocks f).foldl (predStep f) ⟨fun _ => 0, fun _ => 0, 0⟩

/-- A grid cell holds a valid prediction block: a partition origin whose
prediction mode lies in `{0,1,2}`. -/
def validPredB (f : Frame) (p : Nat × Nat) : Bool :=
  decide (f.log2CbSize p.1 p.2 ≠ 0) && decide (¬(pAt f p < 0 ∨ pAt f p > 2))

/-- A grid cell holds an invalid prediction block. -/
def invalidPredB (f : Frame) (p : Nat × Nat) : Bool :=
  decide (f.log2CbSize p.1 p.2 ≠ 0) && decide (pAt f p < 0 ∨ pAt f p > 2)

/-- Number of valid prediction blocks of a frame. -/
def countValidPred (f : Frame) : Nat :=
  ((blocks f).filter (validPredB f)).length

/-- Sum of block pixel areas over the valid prediction blocks. -/
def areaValidPred (f : Frame) : Int :=
  (((blocks f).filter (validPredB f)).map (fun p => cbAt f p * cbAt f p)).sum

/-- State threaded through the `get_ctu_distro` grid walk. -/
structure CtuState where
  distro : Nat → Int
  distrow : Nat → Int
  diags : Nat

/-- Body of the double loop of `get_ctu_distro` (qpextract.cc lines
273-293): skip non-origin cells, emit a diagnostic when `CbSize` is not
one of `8,16,32,64`, otherwise bump bucket `log2CbSize - 3`. -/
def ctuStep (f : Frame) (st : CtuState) (p : Nat × Nat) : CtuState :=
  let l2 := f.log2CbSize p.1 p.2
  if l2 = 0 then st
  else
    let cbSize : Int := 2 ^ l2
    if cbSize ≠ 8 ∧ cbSize ≠ 16 ∧ cbSize ≠ 32 ∧ cbSize ≠ 64 then
      { st with diags := st.diags + 1 }
    else
      { distro := updF st.distro (l2 - 3) (st.distro (l2 - 3) + 1),
        distrow := updF st.distrow (l2 - 3) (st.distrow (l2 - 3) + cbSize * cbSize),
        diags := st.diags }

/-- Embedding of `get_ctu_distro` (qpextract.cc lines 261-295). -/
def get_ctu_distro (f : Frame) : CtuState :=
  (blocks f).foldl (ctuStep f) ⟨fun _ => 0, fun _ => 0, 0⟩

/-- A grid cell holds a valid CTU block: a partition origin whose size
`1 << log2CbSize` is one of `8,16,32,64`. -/
def validCtuB (f : Frame) (p : Nat × Nat) : Bool :=
  decide (f.log2CbSize p.1 p.2 ≠ 0) &&
    decide (¬(cbAt f p ≠ 8 ∧ cbAt f p ≠ 16 ∧ cbAt f p ≠ 32 ∧ cbAt f p ≠ 64))

/-- A grid cell holds an invalid CTU block. -/
def invalidCtuB (f : Frame) (p : Nat × Nat) : Bool :=
  decide (f.log2CbSize p.1 p.2 ≠ 0) &&
    decide (cbAt f p ≠ 8 ∧ cbAt f p ≠ 16 ∧ cbAt f p ≠ 32 ∧ cbAt f p ≠ 64)

/-- Number of valid CTU blocks of a frame. -/
def countValidCtu (f : Frame) : Nat :=
  ((blocks f).filter (validCtuB f)).length

/-- Sum of block pixel areas over the valid CTU blocks. -/
def areaValidCtu (f : Frame) : Int :=
  (((blocks f).filter (validCtuB f)).map (fun p => cbAt f p * cbAt f p)).sum

example : sumTo (fun i => (i : Int)) 3 = 3 := by decide

/-- Embedding of `get_qp_statistics` (qpextract.cc lines 297-316) in the
memory view: both summation loops run `qp` from `MIN_QP_VALUE = 0` to
`MAX_QP_VALUE = 100` inclusive.  `double` arithmetic is modelled over `ℚ`;
the third component is the radicand of the reported standard deviation
(`qp_sumsquare / qp_num`), so the reported `qp_stddev` is its square root.
Returns `(qp_num, qp_avg, variance)`. -/
def get_qp_statistics (g : Nat → Int) : Int × ℚ × ℚ :=
  let qp_sum : Int := ∑ qp ∈ Finset.range 101, (qp : Int) * g qp
  let qp_num : Int := ∑ qp ∈ Finset.range 101, g qp
  let qp_avg : ℚ := (qp_sum : ℚ) / (qp_num : ℚ)
  let qp_sumsquare : ℚ := ∑ qp ∈ Finset.range 101, ((qp : ℚ) - qp_avg) ^ 2 * (g qp : ℚ)
  (qp_num, qp_avg, qp_sumsquare / (qp_num : ℚ))

/-- Size of the histogram arrays declared in `dump_image_qp`
(`int qp_distro[MAX_QP_VALUE]` with `MAX_QP_VALUE = 100`). -/
def MAX_QP_VALUE : Nat := 100

/-- Checked read of a list of indices from an array: `none` as soon as one
access is out of bounds. -/
def readAll (d : Array Int) : List Nat → Option (List Int)
  | [] => some []
  | i :: is =>
    match d[i]?, readAll d is with
    | some x, some xs => some (x :: xs)
    | _, _ => none

/-- Bounds-checked rendering of `get_qp_statistics`: the summation loops
access indices `0..MAX_QP_VALUE` inclusive of the array they are handed;
a single out-of-bounds access makes the whole computation fail. -/
def get_qp_statistics_checked (d : Array Int) : Option (Int × ℚ × ℚ) :=
  match readAll d (List.range (MAX_QP_VALUE + 1)) with
  | none => none
  | some vals =>
    let idx := List.range (MAX_QP_VALUE + 1)
    let qp_sum : Int := ((idx.zip vals).map (fun p => (p.1 : Int) * p.2)).sum
    let qp_num : Int := vals.sum
    let qp_avg : ℚ := (qp_sum : ℚ) / (qp_num : ℚ)
    let ss : ℚ := ((idx.zip vals).map (fun p => ((p.1 : ℚ) - qp_avg) ^ 2 * (p.2 : ℚ))).sum
    some (qp_num, qp_avg, ss / (qp_num : ℚ))

/-- The 100-element array `int qp_distro[MAX_QP_VALUE]` that
`dump_image_qp` fills via `get_qp_distro` and hands to
`get_qp_statistics`. -/
def qpDistroArray (f : Frame) (pm : Procmode) : Array Int :=
  Array.ofFn (fun i : Fin MAX_QP_VALUE => (get_qp_distro f pm).distro i)

/-- Range-mismatch diagnostics printed by `dump_image_qp` (lines 380-386),
each suggesting the corrective flag for the offending bound. -/
inductive RangeDiag
  | suggestMaxQp (q : Int)
  | suggestMinQp (q : Int)
deriving DecidableEq, Repr

/-- Everything `dump_image_qp` reports for one frame: the two statistics
blocks, the tracked min/max, the range diagnostics, and the histogram
buckets actually printed (configured range, ascending). -/
structure QpDump where
  qp_num : Int
  qp_min : Int
  qp_max : Int
  qp_avg : ℚ
  qp_var : ℚ
  qpw_num : Int
  qpw_avg : ℚ
  qpw_var : ℚ
  rangeDiags : List RangeDiag
  printedU : List Int
  printedW : List Int

/-- Embedding of `dump_image_qp` (qpextract.cc lines 348-398): run
`get_qp_distro`, compute statistics over the full `0..100` summation
range for both histograms, emit range diagnostics when the tracked
min/max fall outside `[minPrintedQP, maxPrintedQP]`, and print the
buckets of the configured range in ascending order (unweighted first,
then weighted). -/
def dump_image_qp (f : Frame) (pm : Procmode) (minP maxP : Nat) : QpDump :=
  let d := get_qp_distro f pm
  let s := get_qp_statistics d.distro
  let sw := get_qp_statistics d.distrow
  { qp_num := s.1
    qp_min := d.qp_min
    qp_max := d.qp_max
    qp_avg := s.2.1
    qp_var := s.2.2
    qpw_num := sw.1
    qpw_avg := sw.2.1
    qpw_var := sw.2.2
    rangeDiags :=
      (if d.qp_max > (maxP : Int) then [RangeDiag.suggestMaxQp d.qp_max] else []) ++
      (if d.qp_min < (minP : Int) then [RangeDiag.suggestMinQp d.qp_min] else [])
    printedU := (List.range' minP (maxP + 1 - minP)).map d.distro
    printedW := (List.range' minP (maxP + 1 - minP)).map d.distrow }

/-- Division as the serializers perform it, made observable: `none` marks
a division whose divisor is zero (in the C code an unguarded
floating-point `0/0`), otherwise the exact quotient. -/
def checkedDiv (a b : Int) : Option ℚ :=
  if b = 0 then none else some ((a : ℚ) / (b : ℚ))

/-- One ratio-bearing CSV row: raw counts, then each count divided by the
row total, for the unweighted and the weighted histogram. -/
structure RatioDump where
  counts : List Int
  ratios : List (Option ℚ)
  countsw : List Int
  ratiosw : List (Option ℚ)

/-- Embedding of `dump_image_pred` (qpextract.cc lines 400-442): the three
counts are printed and summed, then each count is divided by that sum with
no guard on `sum == 0`; likewise for the weighted histogram. -/
def dump_image_pred (f : Frame) : RatioDump :=
  let d := get_pred_distro f
  let c := [d.distro 0, d.distro 1, d.distro 2]
  let s := c.sum
  let cw := [d.distrow 0, d.distrow 1, d.distrow 2]
  let sw := cw.sum
  { counts := c
    ratios := c.map (fun a => checkedDiv a s)
    countsw := cw
    ratiosw := cw.map (fun a => checkedDiv a sw) }

/-- Embedding of `dump_ctu_distro` (qpextract.cc lines 445-487): four
counts, four unguarded ratios, then the weighted counterparts. -/
def dump_ctu_distro (f : Frame) : RatioDump :=
  let d := get_ctu_distro f
  let c := [d.distro 0, d.distro 1, d.distro 2, d.distro 3]
  let s := c.sum
  let cw := [d.distrow 0, d.distrow 1, d.distrow 2, d.distrow 3]
  let sw := cw.sum
  { counts := c
    ratios := c.map (fun a => checkedDiv a s)
    countsw := cw
    ratiosw := cw.map (fun a => checkedDiv a sw) }

/-- Result codes of the external decoding engine, as distinguished by the
ingestion loop: `DE265_OK`, `DE265_ERROR_CHECKSUM_MISMATCH`, and every
other error code collapsed into one constructor. -/
inductive De265Error
  | ok
  | checksumMismatch
  | otherError
deriving DecidableEq, Repr

/-- One call to `de265_decode`, as the engine answers it: the returned
error code, the `more` out-parameter, and the IDs of the frames delivered
to the `get_image` callback during the call. -/
structure DecodeStep where
  err : De265Error
  more : Bool
  frameIds : List Int
deriving DecidableEq, Repr

/-- One record written to the output sink: the one-shot CSV header
(tagged with the mode whose schema it carries) or a per-frame data row. -/
inductive OutRec
  | header (pm : Procmode)
  | row (id : Int)
deriving DecidableEq, Repr

/-- Whether an output record is the CSV header. -/
def OutRec.isHeader : OutRec → Bool
  | .header _ => true
  | .row _ => false

/-- Result of one run of the inner decoding loop (qpextract.cc lines
796-818): the last error returned by `de265_decode`, whether the loop set
`stop` (checksum mismatch while `check_hash` is on), the rows emitted by
the per-frame callback, and the engine trace left unconsumed. -/
structure DrainResult where
  err : De265Error
  stopFlag : Bool
  rows : List OutRec
  rest : List DecodeStep
deriving DecidableEq, Repr

/-- Embedding of the inner decoding loop: call `de265_decode` (consuming
one trace entry; an exhausted trace answers `(DE265_OK, more = 0)`), stop
on error — setting `stop` only for a checksum mismatch while `check_hash`
was requested — and keep looping while `more` is set. -/
def drain (checkHash : Bool) : List DecodeStep → DrainResult
  | [] => ⟨.ok, false, [], []⟩
  | s :: rest =>
    if s.err ≠ .ok then
      ⟨s.err, checkHash && decide (s.err = .checksumMismatch), s.frameIds.map OutRec.row, rest⟩
    else if s.more then
      let d := drain checkHash rest
      ⟨d.err, d.stopFlag, s.frameIds.map OutRec.row ++ d.rows, d.rest⟩
    else
      ⟨.ok, false, s.frameIds.map OutRec.row, rest⟩

/-- Mutable state of the ingestion loop in `main`: byte offset `pos`, the
number of `fread` calls issued, the pushes issued (unit size, offset),
the rows written by the callback, the number of `de265_flush_data` calls,
and the current `err`. -/
structure LoopState where
  pos : Nat
  reads : Nat
  pushes : List (Nat × Nat)
  rows : List OutRec
  flushes : Nat
  err : De265Error
deriving DecidableEq, Repr

/-- Final state of the raw-mode ingestion loop, plus the number of input
bytes left unread. -/
structure RawResult where
  pos : Nat
  reads : Nat
  pushes : List (Nat × Nat)
  rows : List OutRec
  flushes : Nat
  err : De265Error
  remaining : Nat
deriving DecidableEq, Repr

/-- Chunk size of raw-mode reads (`BUFFER_SIZE`). -/
def BUFFER_SIZE : Nat := 40960

/-- Embedding of the raw-mode ingestion loop of `main` (qpextract.cc lines
763-819, `else` branch).  Raw-mode behaviour depends on the input only
through its byte count, so the unread input is carried as a `Nat`.  Each
iteration reads up to `BUFFER_SIZE` bytes; a non-empty read is pushed
(`pushTrace` supplies the engine's answer, exhausted means `DE265_OK`)
and a push error `break`s out of the loop at once (before `pos += n`).
Reaching end-of-file flushes once and arms `stop`; the drain then runs
(its decode call overwrites `err`, which is why the flush result is not
carried) and a checksum-mismatch stop from the drain also ends the loop.
Fuel bounds the iteration count; every theorem below supplies enough. -/
def runRawAux (checkHash : Bool) :
    Nat → Nat → List DecodeStep → List De265Error → LoopState → RawResult
  | 0, remaining, _, _, st =>
    ⟨st.pos, st.reads, st.pushes, st.rows, st.flushes, st.err, remaining⟩
  | fuel + 1, remaining, trace, pushTrace, st =>
    let n := min BUFFER_SIZE remaining
    let remaining2 := remaining - n
    let reads2 := st.reads + 1
    if n ≠ 0 ∧ pushTrace.headD .ok ≠ .ok then
      ⟨st.pos, reads2, st.pushes ++ [(n, st.pos)], st.rows, st.flushes,
        pushTrace.headD .ok, remaining2⟩
    else
      let pushes2 := if n ≠ 0 then st.pushes ++ [(n, st.pos)] else st.pushes
      let pushTrace2 := if n ≠ 0 then pushTrace.tail else pushTrace
      let pos2 := st.pos + n
      let eof := remaining < BUFFER_SIZE
      let flushes2 := if eof then st.flushes + 1 else st.flushes
      let d := drain checkHash trace
      let rows2 := st.rows ++ d.rows
      if eof || d.stopFlag then
        ⟨pos2, reads2, pushes2, rows2, flushes2, d.err, remaining2⟩
      else
        runRawAux checkHash fuel remaining2 d.rest pushTrace2
          ⟨pos2, reads2, pushes2, rows2, flushes2, d.err⟩

/-- Raw-mode ingestion loop started from the zero state. -/
def runRaw (checkHash : Bool) (fuel remaining : Nat) (trace : List DecodeStep)
    (pushTrace : List De265Error) : RawResult :=
  runRawAux checkHash fuel remaining trace pushTrace ⟨0, 0, [], [], 0, .ok⟩

/-- Final state of the NAL-mode ingestion loop, plus the unread bytes. -/
structure NalResult where
  pos : Nat
  reads : Nat
  pushes : List (Nat × Nat)
  rows : List OutRec
  flushes : Nat
  err : De265Error
  remaining : List Nat
deriving DecidableEq, Repr

/-- The 32-bit big-endian length header of a NAL unit
(`(len[0]<<24) + (len[1]<<16) + (len[2]<<8) + len[3]`). -/
def be32 : List Nat → Nat
  | [a, b, c, d] => a * 16777216 + b * 65536 + c * 256 + d
  | _ => 0

/-- Embedding of the NAL-mode ingestion loop of `main` (qpextract.cc lines
764-773 plus the shared tail).  `fread` is modelled on the byte list: it
returns the bytes it could take and raises the end-of-file indicator when
it came up short.  When the 4-byte header read is short, the C code
computes the length from an uninitialised stack buffer; that unknown is
the `junkLen` parameter (it never influences pushes or `pos`, because a
short header read means the file is already exhausted).  The NAL push's
return value is assigned to `err` but - unlike raw mode - never checked,
so no push can break the loop. -/
def runNalAux (checkHash : Bool) (junkLen : Nat) :
    Nat → List Nat → Bool → List DecodeStep → List De265Error → LoopState → NalResult
  | 0, bytes, _, _, _, st =>
    ⟨st.pos, st.reads, st.pushes, st.rows, st.flushes, st.err, bytes⟩
  | fuel + 1, bytes, eofFlag, trace, pushTrace, st =>
    let hdr := bytes.take 4
    let bytes1 := bytes.drop 4
    let eof1 := eofFlag || decide (hdr.length < 4)
    let length := if hdr.length = 4 then be32 hdr else junkLen
    let body := bytes1.take length
    let bytes2 := bytes1.drop length
    let n := body.length
    let eof2 := eof1 || decide (n < length)
    let reads2 := st.reads + 2
    let pushes2 := st.pushes ++ [(n, st.pos)]
    let pos2 := st.pos + n
    let flushes2 := if eof2 then st.flushes + 1 else st.flushes
    let d := drain checkHash trace
    let rows2 := st.rows ++ d.rows
    if eof2 || d.stopFlag then
      ⟨pos2, reads2, pushes2, rows2, flushes2, d.err, bytes2⟩
    else
      runNalAux checkHash junkLen fuel bytes2 eof2 d.rest pushTrace.tail
        ⟨pos2, reads2, pushes2, rows2, flushes2, d.err⟩

/-- NAL-mode ingestion loop started from the zero state with a clear
end-of-file indicator. -/
def runNal (checkHash : Bool) (junkLen : Nat) (fuel : Nat) (bytes : List Nat)
    (trace : List DecodeStep) (pushTrace : List De265Error) : NalResult :=
  runNalAux checkHash junkLen fuel bytes false trace pushTrace ⟨0, 0, [], [], 0, .ok⟩

/-- Process exit code (qpextract.cc line 827):
`return err == DE265_OK ? 0 : 10`. -/
def exitCode (e : De265Error) : Nat :=
  if e = .ok then 0 else 10

/-- Everything `main` writes to the output sink in raw mode: the CSV
header for the active mode (written once, before the loop starts, lines
752-757), then the rows the per-frame callback produced. -/
def programOutputRaw (pm : Procmode) (checkHash : Bool) (fuel remaining : Nat)
    (trace : List DecodeStep) (pushTrace : List De265Error) : List OutRec :=
  OutRec.header pm :: (runRaw checkHash fuel remaining trace pushTrace).rows

/-- Everything `main` writes to the output sink in NAL mode. -/
def programOutputNal (pm : Procmode) (checkHash : Bool) (junkLen fuel : Nat)
    (bytes : List Nat) (trace : List DecodeStep) (pushTrace : List De265Error) : List OutRec :=
  OutRec.header pm :: (runNal checkHash junkLen fuel bytes trace pushTrace).rows

/-- Running-maximum update of `get_qp_distro`
(`if (qp != -1 && (*qp_max == -1 || qp > *qp_max)) *qp_max = qp`). -/
def mergeMax (m v : Int) : Int :=
  if v ≠ -1 ∧ (m = -1 ∨ v > m) then v else m

/-- Running-minimum update of `get_qp_distro`. -/
def mergeMin (m v : Int) : Int :=
  if v ≠ -1 ∧ (m = -1 ∨ v < m) then v else m

lemma sumTo_succ (g : Nat → Int) (n : Nat) : sumTo g (n + 1) = sumTo g n + g n := by
  simp [sumTo, List.range_succ]

lemma sumTo_congr (g h : Nat → Int) (n : Nat) (H : ∀ j, j < n → g j = h j) :
    sumTo g n = sumTo h n := by
  induction n with
  | zero => simp [sumTo]
  | succ n ih =>
    rw [sumTo_succ, sumTo_succ, ih (fun j hj => H j (by omega)), H n (by omega)]

lemma updF_ne (g : Nat → Int) (i : Nat) (v : Int) (j : Nat) (h : j ≠ i) :
    updF g i v j = g j := by
  simp [updF, h]

lemma updF_self (g : Nat → Int) (i : Nat) (v : Int) : updF g i v i = v := by
  simp [updF]

lemma sumTo_updF (g : Nat → Int) (i : Nat) (c : Int) :
    ∀ n, i < n → sumTo (updF g i (g i + c)) n = sumTo g n + c := by
  intro n
  induction n with
  | zero => intro h; omega
  | succ n ih =>
    intro h
    rw [sumTo_succ, sumTo_succ]
    by_cases hin : i = n
    · subst hin
      have heq : sumTo (updF g i (g i + c)) i = sumTo g i :=
        sumTo_congr _ _ i (fun j hj => updF_ne g i _ j (by omega))
      rw [heq, updF_self]
      ring
    · have hi : i < n := by omega
      rw [ih hi, updF_ne g i _ n (fun hh => hin hh.symm)]
      ring

lemma qpStep_skip (f : Frame) (pm : Procmode) (st : QpState) (p : Nat × Nat)
    (h2 : f.log2CbSize p.1 p.2 = 0) : qpStep f pm st p = st := by
  simp [qpStep, h2]

lemma qpStep_invalid (f : Frame) (pm : Procmode) (st : QpState) (p : Nat × Nat)
    (h2 : ¬ f.log2CbSize p.1 p.2 = 0) (hq : qAt f pm p < 0 ∨ 100 ≤ qAt f pm p) :
    qpStep f pm st p =
      { st with qp_max := mergeMax st.qp_max (qAt f pm p),
                qp_min := mergeMin st.qp_min (qAt f pm p),
                diags := st.diags + 1 } := by
  simp only [qAt] at hq
  simp [qpStep, h2, hq, mergeMax, mergeMin, qAt]

lemma qpStep_valid (f : Frame) (pm : Procmode) (st : QpState) (p : Nat × Nat)
    (h2 : ¬ f.log2CbSize p.1 p.2 = 0) (hq : ¬(qAt f pm p < 0 ∨ 100 ≤ qAt f pm p)) :
    qpStep f pm st p =
      ⟨updF st.distro (qAt f pm p).toNat (st.distro (qAt f pm p).toNat + 1),
       updF st.distrow (qAt f pm p).toNat
         (st.distrow (qAt f pm p).toNat + cbAt f p * cbAt f p),
       mergeMax st.qp_max (qAt f pm p), mergeMin st.qp_min (qAt f pm p), st.diags⟩ := by
  simp only [qAt] at hq
  simp [qpStep, h2, hq, mergeMax, mergeMin, qAt, cbAt]

lemma validQpB_iff (f : Frame) (pm : Procmode) (p : Nat × Nat) :
    validQpB f pm p = true ↔
      (¬ f.log2CbSize p.1 p.2 = 0 ∧ ¬(qAt f pm p < 0 ∨ 100 ≤ qAt f pm p)) := by
  simp [validQpB, qAt]

lemma qp_fold_sum (f : Frame) (pm : Procmode) :
    ∀ (l : List (Nat × Nat)) (st : QpState),
      sumTo ((l.foldl (qpStep f pm) st).distro) 100
        = sumTo st.distro 100 + ((l.filter (validQpB f pm)).length : Int) := by
  intro l
  induction l with
  | nil => intro st; simp
  | cons p l ih =>
    intro st
    rw [List.foldl_cons]
    by_cases h2 : f.log2CbSize p.1 p.2 = 0
    · have hv : ¬ validQpB f pm p = true := by simp [validQpB_iff, h2]
      rw [qpStep_skip f pm st p h2, ih, List.filter_cons_of_neg hv]
    · by_cases hq : qAt f pm p < 0 ∨ 100 ≤ qAt f pm p
      · have hv : ¬ validQpB f pm p = true := by simp [validQpB_iff, h2, hq]
        rw [qpStep_invalid f pm st p h2 hq, ih, List.filter_cons_of_neg hv]
      · have hlt : (qAt f pm p).toNat < 100 := by omega
        have hv : validQpB f pm p = true := (validQpB_iff f pm p).2 ⟨h2, hq⟩
        rw [qpStep_valid f pm st p h2 hq, ih, List.filter_cons_of_pos hv]
        show sumTo (updF st.distro (qAt f pm p).toNat (st.distro (qAt f pm p).toNat + 1)) 100
            + _ = _
        rw [sumTo_updF _ _ _ 100 hlt, List.length_cons]
        push_cast
        ring

lemma qp_fold_wsum (f : Frame) (pm : Procmode) :
    ∀ (l : List (Nat × Nat)) (st : QpState),
      sumTo ((l.foldl (qpStep f pm) st).distrow) 100
        = sumTo st.distrow 100
          + ((l.filter (validQpB f pm)).map (fun p => cbAt f p * cbAt f p)).sum := by
  intro l
  induction l with
  | nil => intro st; simp
  | cons p l ih =>
    intro st
    rw [List.foldl_cons]
    by_cases h2 : f.log2CbSize p.1 p.2 = 0
    · have hv : ¬ validQpB f pm p = true := by simp [validQpB_iff, h2]
      rw [qpStep_skip f pm st p h2, ih, List.filter_cons_of_neg hv]
    · by_cases hq : qAt f pm p < 0 ∨ 100 ≤ qAt f pm p
      · have hv : ¬ validQpB f pm p = true := by simp [validQpB_iff, h2, hq]
        rw [qpStep_invalid f pm st p h2 hq, ih, List.filter_cons_of_neg hv]
      · have hlt : (qAt f pm p).toNat < 100 := by omega
        have hv : validQpB f pm p = true := (validQpB_iff f pm p).2 ⟨h2, hq⟩
        rw [qpStep_valid f pm st p h2 hq, ih, List.filter_cons_of_pos hv]
        show sumTo (updF st.distrow (qAt f pm p).toNat
            (st.distrow (qAt f pm p).toNat + cbAt f p * cbAt f p)) 100 + _ = _
        rw [sumTo_updF _ _ _ 100 hlt, List.map_cons, List.sum_cons]
        ring

lemma invalidQpB_iff (f : Frame) (pm : Procmode) (p : Nat × Nat) :
    invalidQpB f pm p = true ↔
      (¬ f.log2CbSize p.1 p.2 = 0 ∧ (qAt f pm p < 0 ∨ 100 ≤ qAt f pm p)) := by
  simp [invalidQpB]

lemma qp_fold_diags (f : Frame) (pm : Procmode) :
    ∀ (l : List (Nat × Nat)) (st : QpState),
      (l.foldl (qpStep f pm) st).diags
        = st.diags + (l.filter (invalidQpB f pm)).length := by
  intro l
  induction l with
  | nil => intro st; simp
  | cons p l ih =>
    intro st
    rw [List.foldl_cons]
    by_cases h2 : f.log2CbSize p.1 p.2 = 0
    · have hv : ¬ invalidQpB f pm p = true := by simp [invalidQpB_iff, h2]
      rw [qpStep_skip f pm st p h2, ih, List.filter_cons_of_neg hv]
    · by_cases hq : qAt f pm p < 0 ∨ 100 ≤ qAt f pm p
      · have hv : invalidQpB f pm p = true := (invalidQpB_iff f pm p).2 ⟨h2, hq⟩
        rw [qpStep_invalid f pm st p h2 hq, ih, List.filter_cons_of_pos hv,
          List.length_cons]
        show st.diags + 1 + _ = _
        omega
      · have hv : ¬ invalidQpB f pm p = true := by simp [invalidQpB_iff, h2, hq]
        rw [qpStep_valid f pm st p h2 hq, ih, List.filter_cons_of_neg hv]

lemma trackedQpL_cons_skip (f : Frame) (pm : Procmode) (p : Nat × Nat)
    (l : List (Nat × Nat)) (h : ¬(f.log2CbSize p.1 p.2 ≠ 0 ∧ qAt f pm p ≠ -1)) :
    trackedQpL f pm (p :: l) = trackedQpL f pm l := by
  simp [trackedQpL, List.filterMap_cons, h]

lemma trackedQpL_cons_keep (f : Frame) (pm : Procmode) (p : Nat × Nat)
    (l : List (Nat × Nat)) (h : f.log2CbSize p.1 p.2 ≠ 0 ∧ qAt f pm p ≠ -1) :
    trackedQpL f pm (p :: l) = qAt f pm p :: trackedQpL f pm l := by
  simp [trackedQpL, List.filterMap_cons, h]

lemma mergeMax_sentinel (m : Int) : mergeMax m (-1) = m := by
  simp [mergeMax]

lemma mergeMin_sentinel (m : Int) : mergeMin m (-1) = m := by
  simp [mergeMin]

lemma qp_fold_max (f : Frame) (pm : Procmode) :
    ∀ (l : List (Nat × Nat)) (st : QpState),
      (l.foldl (qpStep f pm) st).qp_max
        = (trackedQpL f pm l).foldl mergeMax st.qp_max := by
  intro l
  induction l with
  | nil => intro st; simp [trackedQpL]
  | cons p l ih =>
    intro st
    rw [List.foldl_cons]
    by_cases h2 : f.log2CbSize p.1 p.2 = 0
    · rw [qpStep_skip f pm st p h2, ih,
        trackedQpL_cons_skip f pm p l (by simp [h2])]
    · by_cases hm : qAt f pm p = -1
      · have hq : qAt f pm p < 0 ∨ 100 ≤ qAt f pm p := Or.inl (by omega)
        rw [qpStep_invalid f pm st p h2 hq, ih,
          trackedQpL_cons_skip f pm p l (by simp [hm])]
        show List.foldl mergeMax (mergeMax st.qp_max (qAt f pm p)) _ = _
        rw [hm, mergeMax_sentinel]
      · rw [trackedQpL_cons_keep f pm p l ⟨h2, hm⟩, List.foldl_cons]
        by_cases hq : qAt f pm p < 0 ∨ 100 ≤ qAt f pm p
        · rw [qpStep_invalid f pm st p h2 hq, ih]
        · rw [qpStep_valid f pm st p h2 hq, ih]

lemma qp_fold_min (f : Frame) (pm : Procmode) :
    ∀ (l : List (Nat × Nat)) (st : QpState),
      (l.foldl (qpStep f pm) st).qp_min
        = (trackedQpL f pm l).foldl mergeMin st.qp_min := by
  intro l
  induction l with
  | nil => intro st; simp [trackedQpL]
  | cons p l ih =>
    intro st
    rw [List.foldl_cons]
    by_cases h2 : f.log2CbSize p.1 p.2 = 0
    · rw [qpStep_skip f pm st p h2, ih,
        trackedQpL_cons_skip f pm p l (by simp [h2])]
    · by_cases hm : qAt f pm p = -1
      · have hq : qAt f pm p < 0 ∨ 100 ≤ qAt f pm p := Or.inl (by omega)
        rw [qpStep_invalid f pm st p h2 hq, ih,
          trackedQpL_cons_skip f pm p l (by simp [hm])]
        show List.foldl mergeMin (mergeMin st.qp_min (qAt f pm p)) _ = _
        rw [hm, mergeMin_sentinel]
      · rw [trackedQpL_cons_keep f pm p l ⟨h2, hm⟩, List.foldl_cons]
        by_cases hq : qAt f pm p < 0 ∨ 100 ≤ qAt f pm p
        · rw [qpStep_invalid f pm st p h2 hq, ih]
        · rw [qpStep_valid f pm st p h2 hq, ih]

lemma trackedQpL_no_sentinel (f : Frame) (pm : Procmode) (l : List (Nat × Nat)) :
    ∀ v ∈ trackedQpL f pm l, v ≠ -1 := by
  intro v hv
  simp only [trackedQpL, List.mem_filterMap] at hv
  obtain ⟨p, _, hp⟩ := hv
  by_cases h : f.log2CbSize p.1 p.2 ≠ 0 ∧ qAt f pm p ≠ -1
  · rw [if_pos h] at hp
    cases hp
    exact h.2
  · rw [if_neg h] at hp
    cases hp

lemma foldl_mergeMax_eq_max (vals : List Int) :
    ∀ m : Int, m ≠ -1 → (∀ v ∈ vals, v ≠ -1) →
      vals.foldl mergeMax m = vals.foldl max m := by
  induction vals with
  | nil => intro m _ _; rfl
  | cons v vs ih =>
    intro m hm hvals
    have hv : v ≠ -1 := hvals v (by simp)
    rw [List.foldl_cons, List.foldl_cons]
    have hstep : mergeMax m v = max m v := by
      rcases lt_or_le m v with h | h
      · rw [max_eq_right h.le]
        simp [mergeMax, hv, h]
      · rw [max_eq_left h]
        have : ¬ v > m := not_lt.mpr h
        simp [mergeMax, this, hm]
    rw [hstep]
    exact ih (max m v) (by rcases max_choice m v with h | h <;> rw [h] <;> [exact hm; exact hv])
      (fun w hw => hvals w (by simp [hw]))

lemma foldl_mergeMin_eq_min (vals : List Int) :
    ∀ m : Int, m ≠ -1 → (∀ v ∈ vals, v ≠ -1) →
      vals.foldl mergeMin m = vals.foldl min m := by
  induction vals with
  | nil => intro m _ _; rfl
  | cons v vs ih =>
    intro m hm hvals
    have hv : v ≠ -1 := hvals v (by simp)
    rw [List.foldl_cons, List.foldl_cons]
    have hstep : mergeMin m v = min m v := by
      rcases lt_or_le v m with h | h
      · rw [min_eq_right h.le]
        simp [mergeMin, hv, h]
      · rw [min_eq_left h]
        have : ¬ v < m := not_lt.mpr h
        simp [mergeMin, this, hm]
    rw [hstep]
    exact ih (min m v) (by rcases min_choice m v with h | h <;> rw [h] <;> [exact hm; exact hv])
      (fun w hw => hvals w (by simp [hw]))

lemma foldl_mergeMax_maxOr (vals : List Int) (hvals : ∀ v ∈ vals, v ≠ -1) :
    vals.foldl mergeMax (-1) = maxOr (-1) vals := by
  cases vals with
  | nil => rfl
  | cons v vs =>
    have hv : v ≠ -1 := hvals v (by simp)
    rw [List.foldl_cons]
    have h1 : mergeMax (-1) v = v := by simp [mergeMax, hv]
    rw [h1, maxOr]
    exact foldl_mergeMax_eq_max vs v hv (fun w hw => hvals w (by simp [hw]))

lemma foldl_mergeMin_minOr (vals : List Int) (hvals : ∀ v ∈ vals, v ≠ -1) :
    vals.foldl mergeMin (-1) = minOr (-1) vals := by
  cases vals with
  | nil => rfl
  | cons v vs =>
    have hv : v ≠ -1 := hvals v (by simp)
    rw [List.foldl_cons]
    have h1 : mergeMin (-1) v = v := by simp [mergeMin, hv]
    rw [h1, minOr]
    exact foldl_mergeMin_eq_min vs v hv (fun w hw => hvals w (by simp [hw]))

lemma predStep_skip (f : Frame) (st : PredState) (p : Nat × Nat)
    (h2 : f.log2CbSize p.1 p.2 = 0) : predStep f st p = st := by
  simp [predStep, h2]

lemma predStep_invalid (f : Frame) (st : PredState) (p : Nat × Nat)
    (h2 : ¬ f.log2CbSize p.1 p.2 = 0) (hq : pAt f p < 0 ∨ pAt f p > 2) :
    predStep f st p = { st with diags := st.diags + 1 } := by
  simp only [pAt] at hq
  simp [predStep, h2, hq]

lemma predStep_valid (f : Frame) (st : PredState) (p : Nat × Nat)
    (h2 : ¬ f.log2CbSize p.1 p.2 = 0) (hq : ¬(pAt f p < 0 ∨ pAt f p > 2)) :
    predStep f st p =
      ⟨updF st.distro (pAt f p).toNat (st.distro (pAt f p).toNat + 1),
       updF st.distrow (pAt f p).toNat (st.distrow (pAt f p).toNat + cbAt f p * cbAt f p),
       st.diags⟩ := by
  simp only [pAt] at hq
  simp [predStep, h2, hq, pAt, cbAt]

lemma validPredB_iff (f : Frame) (p : Nat × Nat) :
    validPredB f p = true ↔
      (¬ f.log2CbSize p.1 p.2 = 0 ∧ ¬(pAt f p < 0 ∨ pAt f p > 2)) := by
  simp [validPredB]

lemma invalidPredB_iff (f : Frame) (p : Nat × Nat) :
    invalidPredB f p = true ↔
      (¬ f.log2CbSize p.1 p.2 = 0 ∧ (pAt f p < 0 ∨ pAt f p > 2)) := by
  simp [invalidPredB]

lemma pred_fold_sum (f : Frame) :
    ∀ (l : List (Nat × Nat)) (st : PredState),
      sumTo ((l.foldl (predStep f) st).distro) 3
        = sumTo st.distro 3 + ((l.filter (validPredB f)).length : Int) := by
  intro l
  induction l with
  | nil => intro st; simp
  | cons p l ih =>
    intro st
    rw [List.foldl_cons]
    by_cases h2 : f.log2CbSize p.1 p.2 = 0
    · have hv : ¬ validPredB f p = true := by simp [validPredB_iff, h2]
      rw [predStep_skip f st p h2, ih, List.filter_cons_of_neg hv]
    · by_cases hq : pAt f p < 0 ∨ pAt f p > 2
      · have hv : ¬ validPredB f p = true := by simp [validPredB_iff, h2, hq]
        rw [predStep_invalid f st p h2 hq, ih, List.filter_cons_of_neg hv]
      · have hlt : (pAt f p).toNat < 3 := by omega
        have hv : validPredB f p = true := (validPredB_iff f p).2 ⟨h2, hq⟩
        rw [predStep_valid f st p h2 hq, ih, List.filter_cons_of_pos hv]
        show sumTo (updF st.distro (pAt f p).toNat (st.distro (pAt f p).toNat + 1)) 3
            + _ = _
        rw [sumTo_updF _ _ _ 3 hlt, List.length_cons]
        push_cast
        ring

lemma pred_fold_wsum (f : Frame) :
    ∀ (l : List (Nat × Nat)) (st : PredState),
      sumTo ((l.foldl (predStep f) st).distrow) 3
        = sumTo st.distrow 3
          + ((l.filter (validPredB f)).map (fun p => cbAt f p * cbAt f p)).sum := by
  intro l
  induction l with
  | nil => intro st; simp
  | cons p l ih =>
    intro st
    rw [List.foldl_cons]
    by_cases h2 : f.log2CbSize p.1 p.2 = 0
    · have hv : ¬ validPredB f p = true := by simp [validPredB_iff, h2]
      rw [predStep_skip f st p h2, ih, List.filter_cons_of_neg hv]
    · by_cases hq : pAt f p < 0 ∨ pAt f p > 2
      · have hv : ¬ validPredB f p = true := by simp [validPredB_iff, h2, hq]
        rw [predStep_invalid f st p h2 hq, ih, List.filter_cons_of_neg hv]
      · have hlt : (pAt f p).toNat < 3 := by omega
        have hv : validPredB f p = true := (validPredB_iff f p).2 ⟨h2, hq⟩
        rw [predStep_valid f st p h2 hq, ih, List.filter_cons_of_pos hv]
        show sumTo (updF st.distrow (pAt f p).toNat
            (st.distrow (pAt f p).toNat + cbAt f p * cbAt f p)) 3 + _ = _
        rw [sumTo_updF _ _ _ 3 hlt, List.map_cons, List.sum_cons]
        ring

lemma pred_fold_diags (f : Frame) :
    ∀ (l : List (Nat × Nat)) (st : PredState),
      (l.foldl (predStep f) st).diags
        = st.diags + (l.filter (invalidPredB f)).length := by
  intro l
  induction l with
  | nil => intro st; simp
  | cons p l ih =>
    intro st
    rw [List.foldl_cons]
    by_cases h2 : f.log2CbSize p.1 p.2 = 0
    · have hv : ¬ invalidPredB f p = true := by simp [invalidPredB_iff, h2]
      rw [predStep_skip f st p h2, ih, List.filter_cons_of_neg hv]
    · by_cases hq : pAt f p < 0 ∨ pAt f p > 2
      · have hv : invalidPredB f p = true := (invalidPredB_iff f p).2 ⟨h2, hq⟩
        rw [predStep_invalid f st p h2 hq, ih, List.filter_cons_of_pos hv,
          List.length_cons]
        show st.diags + 1 + _ = _
        omega
      · have hv : ¬ invalidPredB f p = true := by simp [invalidPredB_iff, h2, hq]
        rw [predStep_valid f st p h2 hq, ih, List.filter_cons_of_neg hv]

lemma ctuStep_skip (f : Frame) (st : CtuState) (p : Nat × Nat)
    (h2 : f.log2CbSize p.1 p.2 = 0) : ctuStep f st p = st := by
  simp [ctuStep, h2]

lemma ctuStep_invalid (f : Frame) (st : CtuState) (p : Nat × Nat)
    (h2 : ¬ f.log2CbSize p.1 p.2 = 0)
    (hq : cbAt f p ≠ 8 ∧ cbAt f p ≠ 16 ∧ cbAt f p ≠ 32 ∧ cbAt f p ≠ 64) :
    ctuStep f st p = { st with diags := st.diags + 1 } := by
  simp only [cbAt] at hq
  simp [ctuStep, h2, hq]

lemma ctuStep_valid (f : Frame) (st : CtuState) (p : Nat × Nat)
    (h2 : ¬ f.log2CbSize p.1 p.2 = 0)
    (hq : ¬(cbAt f p ≠ 8 ∧ cbAt f p ≠ 16 ∧ cbAt f p ≠ 32 ∧ cbAt f p ≠ 64)) :
    ctuStep f st p =
      ⟨updF st.distro (f.log2CbSize p.1 p.2 - 3)
         (st.distro (f.log2CbSize p.1 p.2 - 3) + 1),
       updF st.distrow (f.log2CbSize p.1 p.2 - 3)
         (st.distrow (f.log2CbSize p.1 p.2 - 3) + cbAt f p * cbAt f p),
       st.diags⟩ := by
  simp only [cbAt] at hq
  simp [ctuStep, h2, hq, cbAt]

lemma validCtuB_iff (f : Frame) (p : Nat × Nat) :
    validCtuB f p = true ↔
      (¬ f.log2CbSize p.1 p.2 = 0 ∧
        ¬(cbAt f p ≠ 8 ∧ cbAt f p ≠ 16 ∧ cbAt f p ≠ 32 ∧ cbAt f p ≠ 64)) := by
  simp [validCtuB]
  tauto

lemma invalidCtuB_iff (f : Frame) (p : Nat × Nat) :
    invalidCtuB f p = true ↔
      (¬ f.log2CbSize p.1 p.2 = 0 ∧
        (cbAt f p ≠ 8 ∧ cbAt f p ≠ 16 ∧ cbAt f p ≠ 32 ∧ cbAt f p ≠ 64)) := by
  simp [invalidCtuB]

lemma ctu_l2_lt (l2 : Nat)
    (h : ¬((2 : Int) ^ l2 ≠ 8 ∧ (2 : Int) ^ l2 ≠ 16 ∧ (2 : Int) ^ l2 ≠ 32 ∧
          (2 : Int) ^ l2 ≠ 64)) : l2 - 3 < 4 := by
  by_contra hc
  have h7 : 7 ≤ l2 := by omega
  have hle : (2 : Int) ^ 7 ≤ (2 : Int) ^ l2 := pow_le_pow_right₀ (by norm_num) h7
  have h64 : (2 : Int) ^ l2 = 8 ∨ (2 : Int) ^ l2 = 16 ∨ (2 : Int) ^ l2 = 32 ∨
      (2 : Int) ^ l2 = 64 := by tauto
  rcases h64 with hv | hv | hv | hv <;> rw [hv] at hle <;> norm_num at hle

lemma ctu_fold_sum (f : Frame) :
    ∀ (l : List (Nat × Nat)) (st : CtuState),
      sumTo ((l.foldl (ctuStep f) st).distro) 4
        = sumTo st.distro 4 + ((l.filter (validCtuB f)).length : Int) := by
  intro l
  induction l with
  | nil => intro st; simp
  | cons p l ih =>
    intro st
    rw [List.foldl_cons]
    by_cases h2 : f.log2CbSize p.1 p.2 = 0
    · have hv : ¬ validCtuB f p = true := by simp [validCtuB_iff, h2]
      rw [ctuStep_skip f st p h2, ih, List.filter_cons_of_neg hv]
    · by_cases hq : cbAt f p ≠ 8 ∧ cbAt f p ≠ 16 ∧ cbAt f p ≠ 32 ∧ cbAt f p ≠ 64
      · have hv : ¬ validCtuB f p = true := by
          simp only [validCtuB_iff]
          tauto
        rw [ctuStep_invalid f st p h2 hq, ih, List.filter_cons_of_neg hv]
      · have hlt : f.log2CbSize p.1 p.2 - 3 < 4 := ctu_l2_lt _ (by simpa [cbAt] using hq)
        have hv : validCtuB f p = true := (validCtuB_iff f p).2 ⟨h2, hq⟩
        rw [ctuStep_valid f st p h2 hq, ih, List.filter_cons_of_pos hv]
        show sumTo (updF st.distro (f.log2CbSize p.1 p.2 - 3)
            (st.distro (f.log2CbSize p.1 p.2 - 3) + 1)) 4 + _ = _
        rw [sumTo_updF _ _ _ 4 hlt, List.length_cons]
        push_cast
        ring

lemma ctu_fold_wsum (f : Frame) :
    ∀ (l : List (Nat × Nat)) (st : CtuState),
      sumTo ((l.foldl (ctuStep f) st).distrow) 4
        = sumTo st.distrow 4
          + ((l.filter (validCtuB f)).map (fun p => cbAt f p * cbAt f p)).sum := by
  intro l
  induction l with
  | nil => intro st; simp
  | cons p l ih =>
    intro st
    rw [List.foldl_cons]
    by_cases h2 : f.log2CbSize p.1 p.2 = 0
    · have hv : ¬ validCtuB f p = true := by simp [validCtuB_iff, h2]
      rw [ctuStep_skip f st p h2, ih, List.filter_cons_of_neg hv]
    · by_cases hq : cbAt f p ≠ 8 ∧ cbAt f p ≠ 16 ∧ cbAt f p ≠ 32 ∧ cbAt f p ≠ 64
      · have hv : ¬ validCtuB f p = true := by
          simp only [validCtuB_iff]
          tauto
        rw [ctuStep_invalid f st p h2 hq, ih, List.filter_cons_of_neg hv]
      · have hlt : f.log2CbSize p.1 p.2 - 3 < 4 := ctu_l2_lt _ (by simpa [cbAt] using hq)
        have hv : validCtuB f p = true := (validCtuB_iff f p).2 ⟨h2, hq⟩
        rw [ctuStep_valid f st p h2 hq, ih, List.filter_cons_of_pos hv]
        show sumTo (updF st.distrow (f.log2CbSize p.1 p.2 - 3)
            (st.distrow (f.log2CbSize p.1 p.2 - 3) + cbAt f p * cbAt f p)) 4 + _ = _
        rw [sumTo_updF _ _ _ 4 hlt, List.map_cons, List.sum_cons]
        ring

lemma ctu_fold_diags (f : Frame) :
    ∀ (l : List (Nat × Nat)) (st : CtuState),
      (l.foldl (ctuStep f) st).diags
        = st.diags + (l.filter (invalidCtuB f)).length := by
  intro l
  induction l with
  | nil => intro st; simp
  | cons p l ih =>
    intro st
    rw [List.foldl_cons]
    by_cases h2 : f.log2CbSize p.1 p.2 = 0
    · have hv : ¬ invalidCtuB f p = true := by simp [invalidCtuB_iff, h2]
      rw [ctuStep_skip f st p h2, ih, List.filter_cons_of_neg hv]
    · by_cases hq : cbAt f p ≠ 8 ∧ cbAt f p ≠ 16 ∧ cbAt f p ≠ 32 ∧ cbAt f p ≠ 64
      · have hv : invalidCtuB f p = true := (invalidCtuB_iff f p).2 ⟨h2, hq⟩
        rw [ctuStep_invalid f st p h2 hq, ih, List.filter_cons_of_pos hv,
          List.length_cons]
        show st.diags + 1 + _ = _
        omega
      · have hv : ¬ invalidCtuB f p = true := by
          simp only [invalidCtuB_iff]
          tauto
        rw [ctuStep_valid f st p h2 hq, ih, List.filter_cons_of_neg hv]

lemma sumTo_three (g : Nat → Int) : sumTo g 3 = g 0 + g 1 + g 2 := by
  simp [sumTo, List.range_succ]
  ring

lemma sumTo_four (g : Nat → Int) : sumTo g 4 = g 0 + g 1 + g 2 + g 3 := by
  simp [sumTo, List.range_succ]
  ring

lemma drain_rows_no_header (ch : Bool) :
    ∀ tr : List DecodeStep, ∀ r ∈ (drain ch tr).rows, r.isHeader = false := by
  intro tr
  induction tr with
  | nil => intro r hr; simp [drain] at hr
  | cons s rest ih =>
    intro r hr
    by_cases he : s.err = .ok
    · by_cases hm : s.more = true
      · simp only [drain, he, hm] at hr
        simp at hr
        rcases hr with ⟨id, _, rfl⟩ | h
        · rfl
        · exact ih r h
      · simp [drain, he, hm] at hr
        obtain ⟨id, _, rfl⟩ := hr
        rfl
    · simp [drain, he] at hr
      obtain ⟨id, _, rfl⟩ := hr
      rfl

lemma runRawAux_rows_no_header (ch : Bool) :
    ∀ (fuel remaining : Nat) (trace : List DecodeStep) (pushTrace : List De265Error)
      (st : LoopState), (∀ r ∈ st.rows, r.isHeader = false) →
      ∀ r ∈ (runRawAux ch fuel remaining trace pushTrace st).rows, r.isHeader = false := by
  intro fuel
  induction fuel with
  | zero =>
    intro remaining trace pushTrace st hst r hr
    exact hst r hr
  | succ fuel ih =>
    intro remaining trace pushTrace st hst r hr
    simp only [runRawAux] at hr
    split at hr
    · exact hst r hr
    · split at hr
      · rcases List.mem_append.1 hr with h | h
        · exact hst r h
        · exact drain_rows_no_header ch trace r h
      · refine ih _ _ _ _ ?_ r hr
        intro w hw
        rcases List.mem_append.1 hw with h | h
        · exact hst w h
        · exact drain_rows_no_header ch trace w h

lemma runNalAux_rows_no_header (ch : Bool) (junkLen : Nat) :
    ∀ (fuel : Nat) (bytes : List Nat) (eofFlag : Bool) (trace : List DecodeStep)
      (pushTrace : List De265Error) (st : LoopState),
      (∀ r ∈ st.rows, r.isHeader = false) →
      ∀ r ∈ (runNalAux ch junkLen fuel bytes eofFlag trace pushTrace st).rows,
        r.isHeader = false := by
  intro fuel
  induction fuel with
  | zero =>
    intro bytes eofFlag trace pushTrace st hst r hr
    exact hst r hr
  | succ fuel ih =>
    intro bytes eofFlag trace pushTrace st hst r hr
    simp only [runNalAux] at hr
    split at hr <;> split at hr <;>
      first
      | (rcases List.mem_append.1 hr with h | h
         exacts [hst r h, drain_rows_no_header ch trace r h])
      | (refine ih _ _ _ _ _ ?_ r hr
         intro w hw
         rcases List.mem_append.1 hw with h | h
         exacts [hst w h, drain_rows_no_header ch trace w h])

lemma readAll_none (d : Array Int) :
    ∀ l : List Nat, (∃ i ∈ l, d[i]? = none) → readAll d l = none := by
  intro l
  induction l with
  | nil => intro h; simp at h
  | cons i is ih =>
    intro h
    rcases h with ⟨j, hj, hnone⟩
    rcases List.mem_cons.1 hj with rfl | hj
    · simp [readAll, hnone]
    · rw [readAll, ih ⟨j, hj, hnone⟩]
      cases d[i]? <;> rfl

lemma qp_distro_sum (f : Frame) (pm : Procmode) :
    sumTo (get_qp_distro f pm).distro 100 = (countValidQp f pm : Int) := by
  rw [get_qp_distro, qp_fold_sum]
  simp [countValidQp, sumTo]

lemma qp_distro_wsum (f : Frame) (pm : Procmode) :
    sumTo (get_qp_distro f pm).distrow 100 = areaValidQp f pm := by
  rw [get_qp_distro, qp_fold_wsum]
  simp [areaValidQp, sumTo]

lemma pred_distro_sum (f : Frame) :
    sumTo (get_pred_distro f).distro 3 = (countValidPred f : Int) := by
  rw [get_pred_distro, pred_fold_sum]
  simp [countValidPred, sumTo]

lemma pred_distro_wsum (f : Frame) :
    sumTo (get_pred_distro f).distrow 3 = areaValidPred f := by
  rw [get_pred_distro, pred_fold_wsum]
  simp [areaValidPred, sumTo]

lemma ctu_distro_sum (f : Frame) :
    sumTo (get_ctu_distro f).distro 4 = (countValidCtu f : Int) := by
  rw [get_ctu_distro, ctu_fold_sum]
  simp [countValidCtu, sumTo]

lemma ctu_distro_wsum (f : Frame) :
    sumTo (get_ctu_distro f).distrow 4 = areaValidCtu f := by
  rw [get_ctu_distro, ctu_fold_wsum]
  simp [areaValidCtu, sumTo]

/-- C1: for every frame, the unweighted histogram of `get_qp_distro` sums
(over the whole value domain `[0,100)`) to the number of valid blocks and
the area-weighted histogram sums to the total pixel area `sum(size_i^2)`
of those same valid blocks; likewise for `get_pred_distro` over its
3-bucket domain.  Out-of-domain blocks contribute to neither sum. -/
theorem C1_histogram_totals (f : Frame) (pm : Procmode) :
    sumTo (get_qp_distro f pm).distro 100 = (countValidQp f pm : Int) ∧
    sumTo (get_qp_distro f pm).distrow 100 = areaValidQp f pm ∧
    sumTo (get_pred_distro f).distro 3 = (countValidPred f : Int) ∧
    sumTo (get_pred_distro f).distrow 3 = areaValidPred f :=
  ⟨qp_distro_sum f pm, qp_distro_wsum f pm, pred_distro_sum f, pred_distro_wsum f⟩

/-- A frame with two partition origins whose luma QP values are 30
(in-domain) and 150 (out-of-domain). -/
def frameC2 : Frame :=
  { picWidthInMinCbsY := 2
    picHeightInMinCbsY := 1
    minCbSize := 8
    log2CbSize := fun _ _ => 3
    qpy := fun xb _ => if xb = 0 then 30 else 150
    qpcb := fun _ _ => 0
    qpcr := fun _ _ => 0
    predMode := fun _ _ => 0
    frameId := 0 }

/-- QP values of the valid blocks of a frame (the values the spec says
the reported min/max range over). -/
def validQpValues (f : Frame) (pm : Procmode) : List Int :=
  ((blocks f).filter (validQpB f pm)).map (qAt f pm)

/-- C2 counterexample: on `frameC2` the reported `qp_max` is 150 — the
out-of-domain value — whereas the maximum over the valid metric values is
30, so an out-of-domain QP is not excluded from the min/max tracking. -/
theorem C2_counterexample :
    (get_qp_distro frameC2 .qpymode).qp_max = 150 ∧
    maxOr (-1) (validQpValues frameC2 .qpymode) = 30 ∧
    (get_qp_distro frameC2 .qpymode).qp_max ≠
      maxOr (-1) (validQpValues frameC2 .qpymode) := by
  refine ⟨by decide, by decide, by decide⟩

/-- C2 (amended): the running `qp_min`/`qp_max` of `get_qp_distro` are
the minimum/maximum over all metric values of partition origins other
than the sentinel `-1` — including out-of-domain values such as 150 or
`-2`; only the sentinel `-1` (and skipped grid cells) is excluded, and
`-1` is reported when no such value exists. -/
theorem C2_minmax_tracking (f : Frame) (pm : Procmode) :
    (get_qp_distro f pm).qp_max = maxOr (-1) (trackedQpValues f pm) ∧
    (get_qp_distro f pm).qp_min = minOr (-1) (trackedQpValues f pm) := by
  constructor
  · rw [get_qp_distro, qp_fold_max, trackedQpValues]
    exact foldl_mergeMax_maxOr _ (trackedQpL_no_sentinel f pm (blocks f))
  · rw [get_qp_distro, qp_fold_min, trackedQpValues]
    exact foldl_mergeMin_minOr _ (trackedQpL_no_sentinel f pm (blocks f))

/-- C8: a block whose metric value is out of the declared domain is
excluded from both histograms and from the ratio denominators (the row
totals equal the valid-block count and valid-block area), one diagnostic
is emitted per occurrence, and the remaining blocks are still aggregated
(the totals count every valid block of the frame). -/
theorem C8_invalid_block_exclusion (f : Frame) (pm : Procmode) :
    (get_pred_distro f).diags = ((blocks f).filter (invalidPredB f)).length ∧
    (dump_image_pred f).counts.sum = (countValidPred f : Int) ∧
    (dump_image_pred f).countsw.sum = areaValidPred f ∧
    (get_ctu_distro f).diags = ((blocks f).filter (invalidCtuB f)).length ∧
    (dump_ctu_distro f).counts.sum = (countValidCtu f : Int) ∧
    (dump_ctu_distro f).countsw.sum = areaValidCtu f ∧
    (get_qp_distro f pm).diags = ((blocks f).filter (invalidQpB f pm)).length := by
  refine ⟨?_, ?_, ?_, ?_, ?_, ?_, ?_⟩
  · rw [get_pred_distro, pred_fold_diags]
    simp
  · show [(get_pred_distro f).distro 0, (get_pred_distro f).distro 1,
      (get_pred_distro f).distro 2].sum = _
    rw [← pred_distro_sum f, sumTo_three]
    simp
    ring
  · show [(get_pred_distro f).distrow 0, (get_pred_distro f).distrow 1,
      (get_pred_distro f).distrow 2].sum = _
    rw [← pred_distro_wsum f, sumTo_three]
    simp
    ring
  · rw [get_ctu_distro, ctu_fold_diags]
    simp
  · show [(get_ctu_distro f).distro 0, (get_ctu_distro f).distro 1,
      (get_ctu_distro f).distro 2, (get_ctu_distro f).distro 3].sum = _
    rw [← ctu_distro_sum f, sumTo_four]
    simp
    ring
  · show [(get_ctu_distro f).distrow 0, (get_ctu_distro f).distrow 1,
      (get_ctu_distro f).distrow 2, (get_ctu_distro f).distrow 3].sum = _
    rw [← ctu_distro_wsum f, sumTo_four]
    simp
    ring
  · rw [get_qp_distro, qp_fold_diags]
    simp

lemma pred_counts_sum (f : Frame) :
    [(get_pred_distro f).distro 0, (get_pred_distro f).distro 1,
      (get_pred_distro f).distro 2].sum = (countValidPred f : Int) := by
  rw [← pred_distro_sum f, sumTo_three]
  simp
  ring

lemma pred_countsw_sum (f : Frame) :
    [(get_pred_distro f).distrow 0, (get_pred_distro f).distrow 1,
      (get_pred_distro f).distrow 2].sum = areaValidPred f := by
  rw [← pred_distro_wsum f, sumTo_three]
  simp
  ring

lemma ctu_counts_sum (f : Frame) :
    [(get_ctu_distro f).distro 0, (get_ctu_distro f).distro 1,
      (get_ctu_distro f).distro 2, (get_ctu_distro f).distro 3].sum
      = (countValidCtu f : Int) := by
  rw [← ctu_distro_sum f, sumTo_four]
  simp
  ring

lemma ctu_countsw_sum (f : Frame) :
    [(get_ctu_distro f).distrow 0, (get_ctu_distro f).distrow 1,
      (get_ctu_distro f).distrow 2, (get_ctu_distro f).distrow 3].sum
      = areaValidCtu f := by
  rw [← ctu_distro_wsum f, sumTo_four]
  simp
  ring

/-- A frame whose single partition origin is invalid for every metric:
`log2CbSize = 7` gives the impossible block size 128 and the prediction
mode is 5, so the frame has zero valid blocks in both ratio-bearing
modes. -/
def frameC3 : Frame :=
  { picWidthInMinCbsY := 1
    picHeightInMinCbsY := 1
    minCbSize := 8
    log2CbSize := fun _ _ => 7
    qpy := fun _ _ => 30
    qpcb := fun _ _ => 30
    qpcr := fun _ _ => 30
    predMode := fun _ _ => 5
    frameId := 0 }

/-- C3 counterexample: `frameC3` has zero valid blocks, yet every ratio
field of both ratio-bearing serializers is a division with divisor 0
(`none` in the checked model) — the division is not guarded. -/
theorem C3_counterexample :
    countValidPred frameC3 = 0 ∧ countValidCtu frameC3 = 0 ∧
    (dump_image_pred frameC3).ratios = [none, none, none] ∧
    (dump_image_pred frameC3).ratiosw = [none, none, none] ∧
    (dump_ctu_distro frameC3).ratios = [none, none, none, none] ∧
    (dump_ctu_distro frameC3).ratiosw = [none, none, none, none] := by
  refine ⟨by decide, by decide, by decide, by decide, by decide, by decide⟩

/-- C3 (amended): each ratio-bearing row is the raw counts followed by
each count divided by that row's total (which equals the valid-block
count, or the valid-block area for the weighted half), but the division
is not guarded: when the frame has zero valid blocks every ratio field is
a division by zero (in the C code an unguarded floating-point `0/0`
producing NaN, not a crash). -/
theorem C3_ratio_rows (f : Frame) :
    ((dump_image_pred f).counts =
        [(get_pred_distro f).distro 0, (get_pred_distro f).distro 1,
          (get_pred_distro f).distro 2] ∧
      (dump_image_pred f).ratios =
        (dump_image_pred f).counts.map
          (fun a => checkedDiv a (countValidPred f : Int)) ∧
      (dump_image_pred f).ratiosw =
        (dump_image_pred f).countsw.map (fun a => checkedDiv a (areaValidPred f)) ∧
      (countValidPred f = 0 → ∀ r ∈ (dump_image_pred f).ratios, r = none)) ∧
    ((dump_ctu_distro f).ratios =
        (dump_ctu_distro f).counts.map
          (fun a => checkedDiv a (countValidCtu f : Int)) ∧
      (dump_ctu_distro f).ratiosw =
        (dump_ctu_distro f).countsw.map (fun a => checkedDiv a (areaValidCtu f)) ∧
      (countValidCtu f = 0 → ∀ r ∈ (dump_ctu_distro f).ratios, r = none)) := by
  have hps := pred_counts_sum f
  have hpw := pred_countsw_sum f
  have hcs := ctu_counts_sum f
  have hcw := ctu_countsw_sum f
  refine ⟨⟨rfl, ?_, ?_, ?_⟩, ?_, ?_, ?_⟩
  · show _ = List.map _ _
    rw [← hps]
    rfl
  · show _ = List.map _ _
    rw [← hpw]
    rfl
  · intro h r hr
    simp only [dump_image_pred] at hr
    obtain ⟨a, _, rfl⟩ := List.mem_map.1 hr
    have hz : ([(get_pred_distro f).distro 0, (get_pred_distro f).distro 1,
        (get_pred_distro f).distro 2].sum) = 0 := by rw [hps, h]; rfl
    simp [checkedDiv, hz]
  · show _ = List.map _ _
    rw [← hcs]
    rfl
  · show _ = List.map _ _
    rw [← hcw]
    rfl
  · intro h r hr
    simp only [dump_ctu_distro] at hr
    obtain ⟨a, _, rfl⟩ := List.mem_map.1 hr
    have hz : ([(get_ctu_distro f).distro 0, (get_ctu_distro f).distro 1,
        (get_ctu_distro f).distro 2, (get_ctu_distro f).distro 3].sum) = 0 := by
      rw [hcs, h]; rfl
    simp [checkedDiv, hz]

/-- C3 witness: on the concrete zero-valid-block frame, both implications
of the amended theorem fire — every emitted ratio is a division by
zero. -/
theorem C3_witness :
    (∀ r ∈ (dump_image_pred frameC3).ratios, r = none) ∧
    (∀ r ∈ (dump_ctu_distro frameC3).ratios, r = none) :=
  ⟨(C3_ratio_rows frameC3).1.2.2.2 (by decide),
   (C3_ratio_rows frameC3).2.2.2 (by decide)⟩

/-- C5: on a histogram whose only nonzero bucket is at value `v` (with
count `c > 0`), `get_qp_statistics` returns count exactly `c`, mean
exactly `v`, and variance exactly 0, hence a population standard
deviation of exactly 0. -/
theorem C5_single_bucket_stats (g : Nat → Int) (v : Nat) (c : Int)
    (hv : v ≤ 99) (hz : ∀ i, i ≠ v → g i = 0) (hgv : g v = c) (hc : 0 < c) :
    (get_qp_statistics g).1 = c ∧
    (get_qp_statistics g).2.1 = (v : ℚ) ∧
    (get_qp_statistics g).2.2 = 0 ∧
    Real.sqrt (((get_qp_statistics g).2.2 : ℚ) : ℝ) = 0 := by
  have hvm : v ∈ Finset.range 101 := Finset.mem_range.2 (by omega)
  have hnum : (∑ qp ∈ Finset.range 101, g qp) = c := by
    rw [Finset.sum_eq_single_of_mem v hvm (fun b _ hb => hz b hb), hgv]
  have hsum : (∑ qp ∈ Finset.range 101, (qp : Int) * g qp) = (v : Int) * c := by
    rw [Finset.sum_eq_single_of_mem v hvm
      (fun b _ hb => by rw [hz b hb, mul_zero]), hgv]
  have hc0 : ((c : Int) : ℚ) ≠ 0 := by
    exact_mod_cast hc.ne'
  have havg : ((((v : Int) * c : Int)) : ℚ) / ((c : Int) : ℚ) = (v : ℚ) := by
    push_cast
    rw [mul_div_assoc, div_self (by exact_mod_cast hc.ne'), mul_one]
  have hss : (∑ qp ∈ Finset.range 101, ((qp : ℚ) - (v : ℚ)) ^ 2 * (g qp : ℚ)) = 0 := by
    apply Finset.sum_eq_zero
    intro b _
    by_cases hbv : b = v
    · subst hbv
      simp
    · rw [hz b hbv]
      simp
  have hstats : get_qp_statistics g = (c, (v : ℚ), 0) := by
    simp only [get_qp_statistics]
    rw [hnum, hsum, havg, hss, zero_div]
  rw [hstats]
  refine ⟨rfl, rfl, rfl, by simp⟩

/-- Histogram with a single nonzero bucket: 5 blocks at QP 37. -/
def singleBucket37 : Nat → Int :=
  fun i => if i = 37 then 5 else 0

/-- C5 witness: the theorem applied to the concrete single-bucket
histogram `singleBucket37`. -/
theorem C5_witness :
    (get_qp_statistics singleBucket37).1 = 5 ∧
    (get_qp_statistics singleBucket37).2.1 = (37 : ℚ) ∧
    (get_qp_statistics singleBucket37).2.2 = 0 ∧
    Real.sqrt (((get_qp_statistics singleBucket37).2.2 : ℚ) : ℝ) = 0 := by
  have h := C5_single_bucket_stats singleBucket37 37 5 (by decide)
    (fun i hi => by simp [singleBucket37, hi]) (by decide) (by decide)
  exact ⟨h.1, h.2.1, h.2.2.1, h.2.2.2⟩

/-- C9: when the tracked QP range escapes the configured print range, the
serializer emits the corrective-flag diagnostic; it still reports the
tracked `qp_min`/`qp_max` and the mean and variance computed over the
full `0..100` summation range (not the configured range); and it prints
exactly the histogram buckets of the configured
`[minPrintedQP, maxPrintedQP]` range in ascending order, unweighted then
weighted. -/
theorem C9_qp_range_report (f : Frame) (pm : Procmode) (minP maxP : Nat) :
    ((get_qp_distro f pm).qp_max > (maxP : Int) →
      RangeDiag.suggestMaxQp (get_qp_distro f pm).qp_max
        ∈ (dump_image_qp f pm minP maxP).rangeDiags) ∧
    ((get_qp_distro f pm).qp_min < (minP : Int) →
      RangeDiag.suggestMinQp (get_qp_distro f pm).qp_min
        ∈ (dump_image_qp f pm minP maxP).rangeDiags) ∧
    (dump_image_qp f pm minP maxP).qp_min = (get_qp_distro f pm).qp_min ∧
    (dump_image_qp f pm minP maxP).qp_max = (get_qp_distro f pm).qp_max ∧
    (dump_image_qp f pm minP maxP).qp_avg =
      (∑ qp ∈ Finset.range 101, (qp : ℚ) * ((get_qp_distro f pm).distro qp : ℚ)) /
        (∑ qp ∈ Finset.range 101, ((get_qp_distro f pm).distro qp : ℚ)) ∧
    (dump_image_qp f pm minP maxP).qp_var =
      (∑ qp ∈ Finset.range 101,
          ((qp : ℚ) - (dump_image_qp f pm minP maxP).qp_avg) ^ 2 *
            ((get_qp_distro f pm).distro qp : ℚ)) /
        (∑ qp ∈ Finset.range 101, ((get_qp_distro f pm).distro qp : ℚ)) ∧
    (dump_image_qp f pm minP maxP).printedU =
      (List.range' minP (maxP + 1 - minP)).map (get_qp_distro f pm).distro ∧
    (dump_image_qp f pm minP maxP).printedW =
      (List.range' minP (maxP + 1 - minP)).map (get_qp_distro f pm).distrow := by
  refine ⟨?_, ?_, rfl, rfl, ?_, ?_, rfl, rfl⟩
  · intro h
    simp [dump_image_qp, h]
  · intro h
    simp [dump_image_qp, h]
  · show ((∑ qp ∈ Finset.range 101, (qp : Int) * (get_qp_distro f pm).distro qp : Int) : ℚ) /
        ((∑ qp ∈ Finset.range 101, (get_qp_distro f pm).distro qp : Int) : ℚ) = _
    push_cast
    rfl
  · show (∑ qp ∈ Finset.range 101,
        ((qp : ℚ) - (dump_image_qp f pm minP maxP).qp_avg) ^ 2 *
          ((get_qp_distro f pm).distro qp : ℚ)) /
        ((∑ qp ∈ Finset.range 101, (get_qp_distro f pm).distro qp : Int) : ℚ) = _
    push_cast
    rfl

/-- A frame with two valid blocks at QP 5 and QP 70, used to trigger both
range diagnostics with the print range `[20, 63]`. -/
def frameC9 : Frame :=
  { picWidthInMinCbsY := 2
    picHeightInMinCbsY := 1
    minCbSize := 8
    log2CbSize := fun _ _ => 3
    qpy := fun xb _ => if xb = 0 then 5 else 70
    qpcb := fun _ _ => 0
    qpcr := fun _ _ => 0
    predMode := fun _ _ => 0
    frameId := 0 }

/-- C9 witness: on `frameC9` with print range `[20, 63]` the tracked
maximum 70 exceeds 63 and the tracked minimum 5 is below 20, and both
corrective-flag diagnostics are emitted. -/
theorem C9_witness :
    RangeDiag.suggestMaxQp (get_qp_distro frameC9 .qpymode).qp_max
        ∈ (dump_image_qp frameC9 .qpymode 20 63).rangeDiags ∧
    RangeDiag.suggestMinQp (get_qp_distro frameC9 .qpymode).qp_min
        ∈ (dump_image_qp frameC9 .qpymode 20 63).rangeDiags :=
  ⟨(C9_qp_range_report frameC9 .qpymode 20 63).1 (by decide),
   (C9_qp_range_report frameC9 .qpymode 20 63).2.1 (by decide)⟩

lemma stats_checked_none (d : Array Int) (hd : d.size = MAX_QP_VALUE) :
    get_qp_statistics_checked d = none := by
  have h100 : d[100]? = none :=
    Array.getElem?_eq_none_iff.2 (by rw [hd]; exact Nat.le_refl _)
  have hnone := readAll_none d (List.range (MAX_QP_VALUE + 1)) ⟨100, by decide, h100⟩
  simp [get_qp_statistics_checked, hnone]

/-- C10: the summation loops of the statistics summarizer run the bucket
index from 0 up to and including 100 (`MAX_QP_VALUE`), while the
histogram arrays declared in `dump_image_qp` have exactly
`MAX_QP_VALUE = 100` elements; under the total embedding with checked
indexing, the access at index 100 is out of bounds on every call, so the
summarizer's accesses are not all within the array's domain. -/
theorem C10_stats_out_of_bounds :
    100 ∈ List.range (MAX_QP_VALUE + 1) ∧
    (∀ d : Array Int, d.size = MAX_QP_VALUE → get_qp_statistics_checked d = none) ∧
    (∀ (f : Frame) (pm : Procmode),
      get_qp_statistics_checked (qpDistroArray f pm) = none) := by
  refine ⟨by decide, fun d hd => stats_checked_none d hd, fun f pm => ?_⟩
  exact stats_checked_none _ (by simp [qpDistroArray])

/-- C10 witness: the theorem applied to a concrete 100-element array. -/
theorem C10_witness :
    get_qp_statistics_checked (Array.mkArray MAX_QP_VALUE (0 : Int)) = none :=
  C10_stats_out_of_bounds.2.1 _ (by simp)

/-- C4 counterexample: with a 40960-byte input whose first decode step
fails with a non-checksum error, the ingestion loop issues a second read
after the error (it does not terminate) and the process exits with code 0
(the error is overwritten by the later clean drain), contradicting the
claim that any other decode error terminates the loop and yields a
nonzero exit code. -/
theorem C4_counterexample :
    (runRaw true 3 BUFFER_SIZE [⟨.otherError, false, []⟩] []).reads = 2 ∧
    (runRaw true 3 BUFFER_SIZE [⟨.otherError, false, []⟩] []).err = .ok ∧
    exitCode (runRaw true 3 BUFFER_SIZE [⟨.otherError, false, []⟩] []).err = 0 := by
  refine ⟨by decide, by decide, by decide⟩

/-- C4 (amended): a checksum-mismatch decode error while `check_hash` is
on terminates the ingestion loop at once (a single read, no further
input) and yields the nonzero exit code 10; any other decode error only
aborts the current drain pass — the loop goes straight on to the next
read with the remaining input, and the recorded error can later be
overwritten, so the final exit code reflects only the engine's last
status. -/
theorem C4_decode_error_handling :
    (∀ (fuel remaining : Nat) (m : Bool) (ids : List Int) (rest : List DecodeStep),
      (runRaw true (fuel + 1) remaining (⟨.checksumMismatch, m, ids⟩ :: rest) []).reads = 1 ∧
      (runRaw true (fuel + 1) remaining
        (⟨.checksumMismatch, m, ids⟩ :: rest) []).err = .checksumMismatch ∧
      exitCode (runRaw true (fuel + 1) remaining
        (⟨.checksumMismatch, m, ids⟩ :: rest) []).err = 10) ∧
    (∀ (fuel k : Nat) (m : Bool) (ids : List Int) (rest : List DecodeStep),
      runRaw true (fuel + 1) (BUFFER_SIZE + k) (⟨.otherError, m, ids⟩ :: rest) []
        = runRawAux true fuel k rest []
            ⟨BUFFER_SIZE, 1, [(BUFFER_SIZE, 0)], ids.map OutRec.row, 0, .otherError⟩) := by
  constructor
  · intro fuel remaining m ids rest
    refine ⟨?_, ?_, ?_⟩ <;> simp [runRaw, runRawAux, drain, exitCode]
  · intro fuel k m ids rest
    have hmin : min BUFFER_SIZE (BUFFER_SIZE + k) = BUFFER_SIZE :=
      Nat.min_eq_left (Nat.le_add_right _ _)
    have heof : ¬(BUFFER_SIZE + k < BUFFER_SIZE) := by omega
    have hne : BUFFER_SIZE ≠ 0 := by decide
    simp [runRaw, runRawAux, drain, hmin, heof, hne]

/-- C6 counterexample: on the NAL-mode input consisting of the 4-byte
big-endian length header `0x00000010` followed by exactly 16 bytes, the
ingestion loop issues two pushes (the 16-byte unit and then a 0-byte unit
when the next header read hits end-of-file), not exactly one. -/
theorem C6_counterexample :
    ¬((runNal false 0 2 ([0, 0, 0, 16] ++ List.replicate 16 0) [] []).pushes.length
      = 1) := by
  decide

/-- C6 (amended): on a NAL-mode input of the 4-byte length header
`0x00000010` followed by exactly 16 arbitrary bytes, the loop pushes
exactly one 16-byte unit at offset 0 (followed by one 0-byte push at
end-of-file), advances the byte-offset counter by exactly 16, and flushes
once; the junk length read from the uninitialised header buffer at
end-of-file does not affect any of this. -/
theorem C6_nal_framing (b0 b1 b2 b3 b4 b5 b6 b7 b8 b9 b10 b11 b12 b13 b14 b15
    junk : Nat) :
    (runNal false junk 2
      ([0, 0, 0, 16] ++ [b0, b1, b2, b3, b4, b5, b6, b7, b8, b9, b10, b11, b12,
        b13, b14, b15]) [] []).pushes = [(16, 0), (0, 16)] ∧
    (runNal false junk 2
      ([0, 0, 0, 16] ++ [b0, b1, b2, b3, b4, b5, b6, b7, b8, b9, b10, b11, b12,
        b13, b14, b15]) [] []).pos = 16 ∧
    ((runNal false junk 2
      ([0, 0, 0, 16] ++ [b0, b1, b2, b3, b4, b5, b6, b7, b8, b9, b10, b11, b12,
        b13, b14, b15]) [] []).pushes.filter (fun pr => pr.1 = 16)).length = 1 ∧
    (runNal false junk 2
      ([0, 0, 0, 16] ++ [b0, b1, b2, b3, b4, b5, b6, b7, b8, b9, b10, b11, b12,
        b13, b14, b15]) [] []).flushes = 1 := by
  refine ⟨?_, ?_, ?_, ?_⟩ <;> simp [runNal, runNalAux, drain, be32]

/-- C7: for every run configuration, in both framing modes, the output
stream written to the sink contains the CSV header of the active mode
exactly once, and it appears before every data row. -/
theorem C7_header_once (pm : Procmode) (ch : Bool) (fuel remaining : Nat)
    (trace : List DecodeStep) (pushTrace : List De265Error)
    (junkLen nfuel : Nat) (bytes : List Nat) (ntrace : List DecodeStep)
    (npushTrace : List De265Error) :
    (programOutputRaw pm ch fuel remaining trace pushTrace).countP OutRec.isHeader = 1 ∧
    (programOutputRaw pm ch fuel remaining trace pushTrace).head?
      = some (.header pm) ∧
    (programOutputNal pm ch junkLen nfuel bytes ntrace npushTrace).countP
      OutRec.isHeader = 1 ∧
    (programOutputNal pm ch junkLen nfuel bytes ntrace npushTrace).head?
      = some (.header pm) := by
  have hraw : ∀ r ∈ (runRaw ch fuel remaining trace pushTrace).rows,
      OutRec.isHeader r = false := by
    intro r hr
    exact runRawAux_rows_no_header ch fuel remaining trace pushTrace
      ⟨0, 0, [], [], 0, .ok⟩ (by intro w hw; simp at hw) r hr
  have hnal : ∀ r ∈ (runNal ch junkLen nfuel bytes ntrace npushTrace).rows,
      OutRec.isHeader r = false := by
    intro r hr
    exact runNalAux_rows_no_header ch junkLen nfuel bytes false ntrace npushTrace
      ⟨0, 0, [], [], 0, .ok⟩ (by intro w hw; simp at hw) r hr
  have hz1 : (runRaw ch fuel remaining trace pushTrace).rows.countP OutRec.isHeader
      = 0 :=
    List.countP_eq_zero.2 (fun a ha => by simp [hraw a ha])
  have hz2 : (runNal ch junkLen nfuel bytes ntrace npushTrace).rows.countP
      OutRec.isHeader = 0 :=
    List.countP_eq_zero.2 (fun a ha => by simp [hnal a ha])
  refine ⟨?_, rfl, ?_, rfl⟩
  · rw [programOutputRaw, List.countP_cons, hz1]
    rfl
  · rw [programOutputNal, List.countP_cons, hz2]
    rfl

end Qpextract
